import Mathlib

/-!
Verification development for `napcat-plugin-openclaw`.

The plugin (`src/index.ts`) bridges QQ (via NapCat) to an OpenClaw AI gateway.
This file gives a shallow embedding of the parts of `src/index.ts` that the
specification's claims concern — the media cache (size-capped eviction and TTL
sweep), the session-key derivation, the chat-event waiter installed around
`chat.send`, the message assembly, the CLI fallback path, and the reply
chunking of `sendReply` — and proves or refutes each claim against it.

File-system effects are modelled explicitly: a cache directory is an
`Option (List CacheFile)` (`none` = the directory does not exist, the list is
in `fs.readdirSync` enumeration order), and fallible `fs.statSync` /
`fs.unlinkSync` calls are driven by Boolean oracles (`statOk`, `unlinkOk`):
`statOk f = false` means `statSync` throws for file `f`, and likewise for
`unlinkOk`; the code catches those exceptions and skips the file.
-/

set_option linter.unusedVariables false

namespace OpenClaw

/-! ### Media cache (index.ts lines 32–110) -/

/-- A file of the media cache directory: name, modification time in
milliseconds (`stat.mtimeMs`), and size in bytes (`stat.size`). -/
structure CacheFile where
  name : String
  mtimeMs : Int
  size : Int
deriving DecidableEq, Repr

/-- Total number of bytes of a list of cache files. -/
def sizeSum (l : List CacheFile) : Int :=
  (l.map (fun f => f.size)).sum

/-- `getCacheDirSize` (index.ts:41–49): a missing directory counts as 0 bytes;
otherwise the sizes of the files whose `statSync` succeeds are summed and a
failing `statSync` is skipped. -/
def getCacheDirSize (statOk : String → Bool) : Option (List CacheFile) → Int
  | none => 0
  | some l => sizeSum (l.filter (fun f => statOk f.name))

/-- The comparator of index.ts:61, `(a, b) => a.mtimeMs - b.mtimeMs`, run
through the (stable) JavaScript `Array.prototype.sort`: a stable merge sort
ascending by `mtimeMs`. -/
def byMtime (l : List CacheFile) : List CacheFile :=
  l.mergeSort (fun a b => decide (a.mtimeMs ≤ b.mtimeMs))

/-- The eviction loop of `evictOldestFiles` (index.ts:63–66): walk the files in
ascending-`mtimeMs` order, re-checking the budget before each file; delete the
file with `unlinkSync` (a failing delete is skipped) and subtract its size from
the running total. Returns the names actually deleted, in deletion order. -/
def evictLoop (unlinkOk : String → Bool) (maxBytes needBytes : Int) :
    List CacheFile → Int → List String
  | [], _ => []
  | f :: fs, cur =>
    if cur + needBytes ≤ maxBytes then []
    else if unlinkOk f.name then
      f.name :: evictLoop unlinkOk maxBytes needBytes fs (cur - f.size)
    else
      evictLoop unlinkOk maxBytes needBytes fs cur

/-- `evictOldestFiles(needBytes)` (index.ts:51–67): a missing directory is left
untouched; otherwise, with `maxBytes = cacheMaxSizeMB * 1024 * 1024`, if the
current size plus `needBytes` already fits, nothing happens; else the files
whose `statSync` succeeds are sorted ascending by `mtimeMs` and deleted in that
order until the budget check passes. Returns the directory after eviction
together with the deleted names in deletion order. -/
def evictOldestFiles (cacheMaxSizeMB needBytes : Int)
    (dir : Option (List CacheFile)) (statOk unlinkOk : String → Bool) :
    Option (List CacheFile) × List String :=
  match dir with
  | none => (none, [])
  | some l =>
    let maxBytes := cacheMaxSizeMB * 1024 * 1024
    let cur := getCacheDirSize statOk (some l)
    if cur + needBytes ≤ maxBytes then (some l, [])
    else
      let files := byMtime (l.filter (fun f => statOk f.name))
      let ev := evictLoop unlinkOk maxBytes needBytes files cur
      (some (l.filter (fun f => !(ev.contains f.name))), ev)

/-- `downloadMedia` (index.ts:93–110): `ensureCacheDir()` creates the directory
if missing, then the URL is fetched (`fetchOk` = `res.ok`); on failure `null`
is returned with nothing written; on success `evictOldestFiles(buf.length)`
runs and only then is the file written. `freshName` models the `randomUUID`
based file name, `now` the new file's modification time. -/
def downloadMedia (cacheMaxSizeMB : Int) (dir : Option (List CacheFile))
    (statOk unlinkOk : String → Bool)
    (freshName : String) (now bytes : Int) (fetchOk : Bool) :
    Option (List CacheFile) × Option String :=
  let ensured : List CacheFile := dir.getD []
  if !fetchOk then (some ensured, none)
  else
    let step := evictOldestFiles cacheMaxSizeMB bytes (some ensured) statOk unlinkOk
    (some (step.1.getD [] ++ [⟨freshName, now, bytes⟩]), some freshName)

/-- `cleanExpiredCache` (index.ts:69–80): a missing directory is a no-op;
otherwise every file whose age `now - mtimeMs` strictly exceeds
`cacheTTLMinutes * 60 * 1000` is deleted; a file whose `statSync` or
`unlinkSync` throws is skipped and the sweep continues. -/
def cleanExpiredCache (cacheTTLMinutes now : Int)
    (dir : Option (List CacheFile)) (statOk unlinkOk : String → Bool) :
    Option (List CacheFile) :=
  match dir with
  | none => none
  | some l =>
    let ttlMs := cacheTTLMinutes * 60 * 1000
    some (l.filter (fun f =>
      !(statOk f.name && decide (now - f.mtimeMs > ttlMs) && unlinkOk f.name)))

/-- `startCacheCleanup` (index.ts:82–87): when the cache is enabled the sweep
is scheduled with `setInterval(..., cacheTTLMinutes * 60 * 1000)`; when it is
disabled no timer runs. The value is the scheduled interval in milliseconds. -/
def cacheCleanupIntervalMs (cacheEnabled : Bool) (cacheTTLMinutes : Int) :
    Option Int :=
  if cacheEnabled then some (cacheTTLMinutes * 60 * 1000) else none

/-! ### Session registry (index.ts lines 154–166) -/

/-- `behavior.groupSessionMode` (`'user' | 'shared'`, src/types). -/
inductive GroupSessionMode where
  | user
  | shared
deriving DecidableEq, Repr

/-- `getSessionBase` (index.ts:157–161). `mode` is
`currentConfig.behavior.groupSessionMode`. -/
def getSessionBase (mode : GroupSessionMode)
    (messageType userId groupId : String) : String :=
  if messageType = "private" then "qq-" ++ userId
  else if mode = GroupSessionMode.shared then "qq-g" ++ groupId
  else "qq-g" ++ groupId ++ "-" ++ userId

/-- `getSessionKey` (index.ts:163–166). `sessionEpochs` models the module-level
`Map` read through `sessionEpochs.get(base) || 0` as a total function with
default 0. -/
def getSessionKey (sessionEpochs : String → Nat) (sessionBase : String) :
    String :=
  let epoch := sessionEpochs sessionBase
  if epoch > 0 then sessionBase ++ "-" ++ toString epoch else sessionBase

/-! ### Chat event payloads and text extraction (index.ts lines 339–357, 657–689) -/

/-- One element of `message.content` in a chat event payload: either a plain
string or an object with an optional `text` field (src/types `ContentBlock`). -/
inductive JsBlock where
  | str (s : String)
  | obj (text : Option String)
deriving DecidableEq, Repr

/-- `message.content`: a single block or an array of blocks. -/
inductive JsContent where
  | one (b : JsBlock)
  | arr (bs : List JsBlock)
deriving DecidableEq, Repr

/-- The `message` field of a chat event payload: absent/null, a plain string,
or an object with optional `content` and `text` fields. -/
inductive JsMessage where
  | null
  | str (s : String)
  | obj (content : Option JsContent) (text : Option String)
deriving DecidableEq, Repr

/-- One step of the block loop of `extractTextFromPayload` (index.ts:348–351):
a string block is appended; an object block contributes its `text` field only
when that field is truthy (present and non-empty). -/
def blockText (acc : String) : JsBlock → String
  | .str s => acc ++ s
  | .obj t =>
    match t with
    | some s => if s = "" then acc else acc ++ s
    | none => acc

/-- `extractTextFromPayload` (index.ts:339–353). -/
def extractTextFromPayload : JsMessage → String
  | .str s => s
  | .null => ""
  | .obj content text =>
    match content with
    | none => text.getD ""
    | some c =>
      let blocks := match c with | .arr bs => bs | .one b => [b]
      blocks.foldl blockText ""

/-- `extractContentText` (index.ts:355–357). -/
def extractContentText (m : JsMessage) : String :=
  extractTextFromPayload m

/-- The `state` field of a chat event payload (src/types). -/
inductive ChatState where
  | delta
  | final
  | aborted
  | error
deriving DecidableEq, Repr

/-- A chat event payload (src/types `ChatEventPayload`). -/
structure ChatPayload where
  sessionKey : String
  runId : String
  state : ChatState
  message : JsMessage
  errorMessage : Option String
deriving DecidableEq, Repr

/-- The correlation check of index.ts:671: the handler proceeds exactly when
`payload.sessionKey` equals the waiter's session key or ends with
`':' + sessionKey`. -/
def payloadMatches (sessionKey : String) (p : ChatPayload) : Bool :=
  p.sessionKey == sessionKey || p.sessionKey.endsWith (":" ++ sessionKey)

/-- JavaScript `a || b` for an optional string `a`: the default is used when
`a` is absent or empty (falsy). -/
def jsOr (s : Option String) (d : String) : String :=
  match s with
  | some m => if m = "" then d else m
  | none => d

/-- Resolution value of a matching `final` event (index.ts:673–677):
`extractContentText(payload.message)`, trimmed, with an empty result turned
into `null` by `text?.trim() || null`. -/
def finalResolution (p : ChatPayload) : Option String :=
  let t := (extractContentText p.message).trim
  if t = "" then none else some t

/-- Resolution value of a matching `error` event (index.ts:684–687). -/
def errorResolution (p : ChatPayload) : String :=
  "❌ " ++ jsOr p.errorMessage "处理出错"

/-! ### Chat-event waiter machine (index.ts lines 653–701)

`plugin_onmessage` builds, per handled message, a `replyPromise` whose executor
arms a 180000 ms timeout and installs a handler with
`gw.eventHandlers.set('chat', …)`. We model the registered waiter by the
session key it correlates on plus a numeric identity `wid` naming its promise
and its timer, the `eventHandlers` entry for `'chat'` as an `Option Waiter`
slot, the pending `setTimeout` timers as a list of waiter identities, and the
promise resolutions as an ordered association list (JavaScript promises keep
only the first `resolve`). -/

/-- A registered chat-event waiter: promise/timer identity and the session key
its predicate correlates on. -/
structure Waiter where
  wid : Nat
  sessionKey : String
deriving DecidableEq, Repr

/-- State shared by all waiters: the single `eventHandlers` entry for `'chat'`,
the pending timers, and the promise resolutions in the order they occurred
(`none` = resolved with `null`). -/
structure EngineState where
  slot : Option Waiter
  armed : List Nat
  resolutions : List (Nat × Option String)
deriving DecidableEq, Repr

/-- The state before any waiter is registered. -/
def EngineState.initial : EngineState :=
  ⟨none, [], []⟩

/-- JavaScript promise resolution: only the first `resolve` of a given promise
is kept. -/
def resolveOnce (rs : List (Nat × Option String)) (wid : Nat)
    (v : Option String) : List (Nat × Option String) :=
  if rs.any (fun r => r.1 == wid) then rs else rs ++ [(wid, v)]

/-- The promise executor of index.ts:657–689: `setTimeout(…, 180000)` arms the
waiter's timer and `gw.eventHandlers.set('chat', …)` installs it as THE `'chat'`
handler, overwriting whatever waiter currently occupies the slot. Returns the
new state and the delay passed to `setTimeout`. -/
def registerWaiter (s : EngineState) (w : Waiter) : EngineState × Nat :=
  ({ s with slot := some w, armed := s.armed ++ [w.wid] }, 180000)

/-- A waiter's `cleanup` (index.ts:663–666): `clearTimeout` of its own timer,
and `gw.eventHandlers.delete('chat')` — which deletes whatever waiter currently
occupies the slot. -/
def cleanupWaiter (s : EngineState) (wid : Nat) : EngineState :=
  { s with slot := none, armed := s.armed.erase wid }

/-- The value a matching terminal event resolves with (index.ts:673–687). -/
def terminalValue (p : ChatPayload) : Option String :=
  match p.state with
  | .final => finalResolution p
  | .aborted => some "⏹ 已中止"
  | .error => some (errorResolution p)
  | .delta => none

/-- Modelled from the spec: `gateway-client.ts` is not part of the excerpted
source; per §4.2/§6 — and §9's observation of the implementation ("one handler
registered and overwritten per call") — the client keeps one handler per event
type in `eventHandlers` and, on each inbound `chat` event frame, invokes the
`'chat'` entry if one is installed. The handler body itself is
index.ts:668–688: ignore the event unless it matches the waiter's session key;
on `final`/`aborted`/`error` run `cleanup()` and resolve; on `delta` do
nothing. -/
def chatEventStep (s : EngineState) (p : ChatPayload) : EngineState :=
  match s.slot with
  | none => s
  | some w =>
    if payloadMatches w.sessionKey p then
      match p.state with
      | .delta => s
      | _ =>
        let s' := cleanupWaiter s w.wid
        { s' with resolutions := resolveOnce s'.resolutions w.wid (terminalValue p) }
    else s

/-- The 180 s timeout callback (index.ts:658–661): if the waiter's timer is
still pending, run `cleanup()` and resolve the promise with `null`. -/
def timeoutStep (s : EngineState) (wid : Nat) : EngineState :=
  if s.armed.contains wid then
    let s' := cleanupWaiter s wid
    { s' with resolutions := resolveOnce s'.resolutions wid none }
  else s

/-- The events the waiter machinery reacts to. -/
inductive EngineAction where
  | register (w : Waiter)
  | chatEvent (p : ChatPayload)
  | fireTimeout (wid : Nat)
deriving DecidableEq, Repr

/-- One step of the waiter machinery. -/
def engineStep (s : EngineState) : EngineAction → EngineState
  | .register w => (registerWaiter s w).1
  | .chatEvent p => chatEventStep s p
  | .fireTimeout wid => timeoutStep s wid

/-- Run a sequence of actions. -/
def runEngine : EngineState → List EngineAction → EngineState
  | s, [] => s
  | s, a :: as => runEngine (engineStep s a) as

/-! ### Message assembly (index.ts lines 617–641) -/

/-- A media reference extracted from the inbound message (src/types
`ExtractedMedia`); `extractMessage` only records entries that carry a URL. -/
structure MediaRef where
  mtype : String
  url : String
  name : Option String
deriving DecidableEq, Repr

/-- The identity header of index.ts:618–621. -/
def identityHeader (messageType nickname userId groupName groupId : String) :
    String :=
  let parts :=
    ["[发送者: " ++ nickname ++ " (QQ: " ++ userId ++ ")"]
    ++ (if messageType = "group" then
          ["群: " ++ (if groupName = "" then groupId else groupName)
            ++ " (" ++ groupId ++ ")"]
        else [])
    ++ [if messageType = "private" then "私聊]" else "群聊]"]
  String.intercalate " | " parts

/-- One media line of index.ts:628–638. `cache m` is the result of
`downloadMedia` for `m` (`none` = the download failed or returned no path), so
a caching failure falls back to the raw URL line. -/
def mediaLine (cacheEnabled : Bool) (cache : MediaRef → Option String)
    (m : MediaRef) : String :=
  let nameTag := match m.name with | some n => " (" ++ n ++ ")" | none => ""
  match (if cacheEnabled then cache m else none) with
  | some localPath => "[" ++ m.mtype ++ ": file://" ++ localPath ++ nameTag ++ "]"
  | none => "[" ++ m.mtype ++ ": " ++ m.url ++ nameTag ++ "]"

/-- `openclawMessage` assembly (index.ts:623–641): identity header, optional
quoted-reply context, the extracted text, then — when media is present — a
blank line and the media lines. -/
def buildOpenclawMessage (header replyContext text : String)
    (media : List MediaRef) (cacheEnabled : Bool)
    (cache : MediaRef → Option String) : String :=
  let base := header ++ "\n"
    ++ (if replyContext = "" then "" else replyContext ++ "\n") ++ text
  match media with
  | [] => base
  | _ => base ++ "\n\n"
      ++ String.intercalate "\n" (media.map (mediaLine cacheEnabled cache))

/-! ### Per-message processing: no debounce buffer (index.ts lines 513–701) -/

/-- A `chat.send` RPC request (index.ts:692–696). -/
structure ChatSendRequest where
  sessionKey : String
  message : String
deriving DecidableEq, Repr

/-- One invocation of `plugin_onmessage` (index.ts:513–701) for a plain private
text message with no media and no quoted reply: the message is handled
immediately — the function keeps no buffer, no timer and no per-session
accumulator (the only module-level state is the config, the gateway handle,
`botUserId` and `sessionEpochs`) — and issues exactly one `chat.send`. -/
def processPrivateTextMessage (epochs : String → Nat)
    (userId nickname text : String) : ChatSendRequest :=
  let base := getSessionBase GroupSessionMode.user "private" userId ""
  { sessionKey := getSessionKey epochs base
    message := buildOpenclawMessage
      (identityHeader "private" nickname userId "" "") "" text [] false
      (fun _ => none) }

/-- Successive `plugin_onmessage` invocations for a burst of private text
messages from one user: since no state connects one invocation to the next,
each inbound message yields its own `chat.send`, whatever the arrival
spacing. -/
def processInbound (epochs : String → Nat) (userId nickname : String)
    (texts : List String) : List ChatSendRequest :=
  texts.map (processPrivateTextMessage epochs userId nickname)

/-! ### Gateway failure fallback (index.ts lines 653–727) -/

/-- An invocation of the local CLI fallback (index.ts:715–720): the `execAsync`
command carries the session key and the message, and the `exec` options carry
`timeout: 180000`. -/
structure CliInvocation where
  sessionKey : String
  message : String
  timeoutMs : Nat
deriving DecidableEq, Repr

/-- A user-visible effect of handling one message. -/
inductive UserAction where
  | sendText (text : String)
  | invokeCli (c : CliInvocation)
deriving DecidableEq, Repr

/-- Outcome of the gateway round trip (connect, `chat.send`, await the reply
promise): success with the resolved reply (`none` = timeout / empty reply), or
a thrown error with its message. -/
inductive GwOutcome where
  | ok (reply : Option String)
  | failed (errMsg : String)
deriving DecidableEq, Repr

/-- Outcome of the CLI fallback: captured stdout, or a thrown error. -/
inductive CliOutcome where
  | ok (stdout : String)
  | failed
deriving DecidableEq, Repr

/-- The control flow of index.ts:653–727 after `openclawMessage` is built:
a successful round trip sends the reply (if any); a failed round trip invokes
the CLI with the same session key and message under its own 180 s timeout and
sends its trimmed stdout when non-empty; if the CLI also fails, the short
failure notice `处理出错: ` plus the first 100 characters of the gateway error
is sent as the reply. -/
def gatewaySendFlow (sessionKey openclawMessage : String)
    (gw : GwOutcome) (cli : CliOutcome) : List UserAction :=
  match gw with
  | .ok (some r) => [.sendText r]
  | .ok none => []
  | .failed e =>
    .invokeCli ⟨sessionKey, openclawMessage, 180000⟩ ::
      (match cli with
       | .ok out => if out.trim = "" then [] else [.sendText out.trim]
       | .failed => [.sendText ("处理出错: " ++ e.take 100)])

/-! ### Reply chunking and send pacing (index.ts lines 376–448) -/

/-- A message segment passed to `ctx.actions.call` by `sendReply`. -/
inductive OutSeg where
  | reply (id : String)
  | atUser (qq : String)
  | text (s : String)
deriving DecidableEq, Repr

/-- The chunk header of index.ts:436: `[idx/total]` plus a newline when there
is more than one chunk. -/
def chunkHeader (idx total : Nat) : String :=
  if total > 1 then "[" ++ toString idx ++ "/" ++ toString total ++ "]\n"
  else ""

/-- The chunk loop of index.ts:434–446 as a recursion over the remaining
characters: `idx` is the 1-based chunk number, `head` the at/quote segments,
attached only to the first chunk (`i === 0`). -/
def chunkLoop (head : List OutSeg) (total : Nat) :
    List Char → Nat → List (List OutSeg)
  | [], _ => []
  | c :: l, idx =>
    ((if idx = 1 then head else [])
        ++ [OutSeg.text (chunkHeader idx total ++ ((c :: l).take 3000).asString)])
      :: chunkLoop head total ((c :: l).drop 3000) (idx + 1)
termination_by l _ => l.length
decreasing_by
  simp [List.length_drop]
  omega

/-- The text-sending part of `sendReply` (index.ts:427–448): nothing is sent
when `cleanText` is empty; a text of at most 3000 characters goes out as one
message carrying the at/quote segments; a longer text is sent in consecutive
3000-character chunks. Returns the segment lists passed to `ctx.actions.call`,
in send order. -/
def sendTextPart (head : List OutSeg) (cleanText : String) :
    List (List OutSeg) :=
  if cleanText = "" then []
  else if cleanText.length ≤ 3000 then [head ++ [OutSeg.text cleanText]]
  else chunkLoop head ((cleanText.length + 2999) / 3000) cleanText.toList 1

/-- Completion times of the text-part sends of one `sendReply` call starting at
`t0`, for a clean text of `len` characters: each `ctx.actions.call` is modelled
as instantaneous, and the only pacing in the code is `await sleep(1000)`
between consecutive chunks of one oversized reply (index.ts:445). Returns the
send times and the time at which the call returns. -/
def chunkTimes (len t : Nat) : List Nat × Nat :=
  if len = 0 then ([], t)
  else if len ≤ 3000 then ([t], t)
  else
    let rest := chunkTimes (len - 3000) (t + 1000)
    (t :: rest.1, rest.2)
termination_by len
decreasing_by omega

/-- Completion times of the sends performed by a back-to-back sequence of
`sendReply` calls (given by the lengths of their clean texts) starting at time
0: nothing in `sendReply` or around it queues or paces calls against each
other. -/
def sendReplySeqTimes (lens : List Nat) (t0 : Nat) : List Nat :=
  match lens with
  | [] => []
  | n :: rest =>
    let r := chunkTimes n t0
    r.1 ++ sendReplySeqTimes rest r.2



/-! ## Theorems -/

/-! ### C3 — session base and session key -/

/-- C3: the session base identity is a pure function of scope, participant and
configuration — a private message maps to `qq-<userId>`; a group message maps
to `qq-g<groupId>` under the `shared` group-session policy and to
`qq-g<groupId>-<userId>` under the per-user policy — and the session key
equals the base when the base's epoch is 0, and `<base>-<epoch>` otherwise. -/
theorem session_identity_spec :
    (∀ mode uid gid, getSessionBase mode "private" uid gid = "qq-" ++ uid) ∧
    (∀ uid gid,
      getSessionBase GroupSessionMode.shared "group" uid gid
        = "qq-g" ++ gid) ∧
    (∀ uid gid,
      getSessionBase GroupSessionMode.user "group" uid gid
        = "qq-g" ++ gid ++ "-" ++ uid) ∧
    (∀ epochs base, getSessionKey epochs base
        = if epochs base = 0 then base
          else base ++ "-" ++ toString (epochs base)) := by
  refine ⟨fun mode uid gid => by simp [getSessionBase],
    fun uid gid => by rw [getSessionBase, if_neg (by decide), if_pos rfl],
    fun uid gid => by rw [getSessionBase, if_neg (by decide), if_neg (by decide)],
    fun epochs base => ?_⟩
  by_cases h : epochs base = 0
  · simp [getSessionKey, h]
  · simp [getSessionKey, h, Nat.pos_of_ne_zero h]

/-! ### C6 — no debounce aggregator exists -/

/-- C6: REFUTED by the code (and contradicting the repository's own README,
which documents 消息防抖 with a configurable window): `plugin_onmessage` keeps
no per-session buffer and no timer, so two private text messages `"a"` and
`"b"` from the same user — however closely spaced — are each handled
immediately and produce two separate `chat.send` requests carrying the two
fragments separately, never one merged request with the joined text. -/
theorem no_debounce_two_requests :
    processInbound (fun _ => 0) "123" "n" ["a", "b"]
      = [⟨"qq-123", "[发送者: n (QQ: 123) | 私聊]\na"⟩,
         ⟨"qq-123", "[发送者: n (QQ: 123) | 私聊]\nb"⟩] ∧
    (processInbound (fun _ => 0) "123" "n" ["a", "b"]).length = 2 := by
  constructor <;> decide

/-! ### C7 — no global rate-limited send queue exists -/

/-- C7: REFUTED by the code (and contradicting the repository's own README,
which documents a global send queue at one message per 2 seconds): `sendReply`
calls `ctx.actions.call` directly — there is no queue and no token interval —
so two back-to-back replies of short texts both complete at time 0, with a gap
of 0 ms rather than the claimed ≥ 2000 ms; the only pacing anywhere is the
1000 ms `sleep` between chunks of one oversized reply. -/
theorem no_global_send_queue :
    sendReplySeqTimes [2, 2] 0 = [0, 0] ∧
    chunkTimes 6000 0 = ([0, 1000], 1000) := by
  constructor <;> simp [sendReplySeqTimes, chunkTimes]

/-! ### C1 — single-slot event waiter -/

/-- A first waiter, correlating on session key `qq-1`. -/
def waiterA : Waiter := ⟨0, "qq-1"⟩

/-- A second waiter, correlating on the distinct session key `qq-2`. -/
def waiterB : Waiter := ⟨1, "qq-2"⟩

/-- A terminal (`final`) chat event that matches `waiterA`'s predicate and not
`waiterB`'s. -/
def finalEventA : ChatPayload :=
  ⟨"qq-1", "run-a", ChatState.final, JsMessage.str "hi", none⟩

/-- C1: counterexample. Register `waiterA`, then `waiterB` (distinct
correlation keys): the second registration overwrites the first
(`eventHandlers.set('chat', …)` is a single slot), so a `final` event matching
`waiterA` is then delivered to nobody that resolves it — no resolution occurs
— and `waiterA` is eventually resolved `null` by its timeout instead of by its
matching event. This falsifies "delivered to every registered event waiter
whose correlation predicate matches" and "registering a new waiter never
removes or overwrites another pending waiter". -/
theorem chat_waiter_overwrite_cex :
    (runEngine .initial [.register waiterA, .register waiterB]).slot
        = some waiterB ∧
    (runEngine .initial
        [.register waiterA, .register waiterB,
         .chatEvent finalEventA]).resolutions = [] ∧
    (runEngine .initial
        [.register waiterA, .register waiterB, .chatEvent finalEventA,
         .fireTimeout 0]).resolutions = [(0, none)] := by
  exact ⟨by decide, by decide, by decide⟩

/-- `resolveOnce` never records a second resolution for the same promise. -/
theorem resolveOnce_keys_nodup {rs : List (Nat × Option String)} {wid : Nat}
    {v : Option String} (h : (rs.map Prod.fst).Nodup) :
    ((resolveOnce rs wid v).map Prod.fst).Nodup := by
  unfold resolveOnce
  split
  · exact h
  · next hany =>
    simp only [List.any_eq_true, beq_iff_eq, not_exists, not_and] at hany
    simp only [List.map_append, List.map_cons, List.map_nil]
    rw [List.nodup_append]
    refine ⟨h, List.nodup_singleton _, ?_⟩
    intro a ha
    simp only [List.mem_singleton]
    intro hEq
    obtain ⟨r, hr, hfst⟩ := List.mem_map.mp ha
    exact hany r hr (hfst.trans hEq)

/-- Every step of the waiter machinery preserves "at most one resolution per
promise". -/
theorem engineStep_keys_nodup (s : EngineState) (a : EngineAction)
    (h : (s.resolutions.map Prod.fst).Nodup) :
    (((engineStep s a).resolutions).map Prod.fst).Nodup := by
  cases a with
  | register w => exact h
  | chatEvent p =>
    show (((chatEventStep s p).resolutions).map Prod.fst).Nodup
    cases hs : s.slot with
    | none => simpa [chatEventStep, hs] using h
    | some w =>
      by_cases hm : payloadMatches w.sessionKey p
      · have hres : (chatEventStep s p).resolutions = s.resolutions ∨
            (chatEventStep s p).resolutions
              = resolveOnce s.resolutions w.wid (terminalValue p) := by
          obtain ⟨sk, rid, st, msg, em⟩ := p
          cases st <;> simp_all [chatEventStep, cleanupWaiter]
        rcases hres with h1 | h1 <;> rw [h1]
        · exact h
        · exact resolveOnce_keys_nodup h
      · simpa [chatEventStep, hs, hm] using h
  | fireTimeout wid =>
    show (((timeoutStep s wid).resolutions).map Prod.fst).Nodup
    by_cases ha : s.armed.contains wid
    · rw [timeoutStep, if_pos ha]
      exact resolveOnce_keys_nodup h
    · rw [timeoutStep, if_neg ha]
      exact h

/-- Runs preserve "at most one resolution per promise". -/
theorem runEngine_keys_nodup (acts : List EngineAction) :
    ∀ s : EngineState, (s.resolutions.map Prod.fst).Nodup →
      (((runEngine s acts).resolutions).map Prod.fst).Nodup := by
  induction acts with
  | nil => intro s h; exact h
  | cons a as ih => intro s h; exact ih _ (engineStep_keys_nodup s a h)

/-- C1 (amended): the code keeps a single `'chat'` handler slot. Registering a
waiter installs it as THE handler, overwriting any pending one; an inbound chat
event can resolve only the currently installed waiter, and does so only when
the event satisfies that waiter's own predicate with a terminal state; and over
any run, each promise resolves at most once. -/
theorem chat_waiter_single_slot :
    (∀ s w, ((registerWaiter s w).1).slot = some w) ∧
    (∀ s p, chatEventStep s p ≠ s →
      ∃ w, s.slot = some w ∧ payloadMatches w.sessionKey p = true ∧
        p.state ≠ ChatState.delta ∧
        (chatEventStep s p).resolutions
          = resolveOnce s.resolutions w.wid (terminalValue p)) ∧
    (∀ acts,
      (((runEngine EngineState.initial acts).resolutions).map Prod.fst).Nodup) := by
  refine ⟨fun s w => rfl, fun s p hne => ?_,
    fun acts => runEngine_keys_nodup acts _ List.nodup_nil⟩
  unfold chatEventStep at hne ⊢
  cases hs : s.slot with
  | none => simp [hs] at hne
  | some w =>
    simp only [hs] at hne ⊢
    by_cases hm : payloadMatches w.sessionKey p
    · simp only [hm, if_true] at hne ⊢
      cases hstate : p.state with
      | delta => simp [hstate] at hne
      | final => exact ⟨w, rfl, hm, by simp [hstate], by simp [hstate, cleanupWaiter]⟩
      | aborted => exact ⟨w, rfl, hm, by simp [hstate], by simp [hstate, cleanupWaiter]⟩
      | error => exact ⟨w, rfl, hm, by simp [hstate], by simp [hstate, cleanupWaiter]⟩
    · simp [hm] at hne

/-- Witness for `chat_waiter_single_slot`: with `waiterA` installed, the
matching `final` event changes the state, and the conclusion holds there. -/
theorem chat_waiter_single_slot_witness :
    ∃ w, (EngineState.mk (some waiterA) [0] []).slot = some w ∧
      payloadMatches w.sessionKey finalEventA = true ∧
      finalEventA.state ≠ ChatState.delta ∧
      (chatEventStep (EngineState.mk (some waiterA) [0] []) finalEventA).resolutions
        = resolveOnce [] w.wid (terminalValue finalEventA) :=
  chat_waiter_single_slot.2.1 (EngineState.mk (some waiterA) [0] []) finalEventA
    (by decide)

/-! ### C4 — 180 s timeout resolves null, removes the waiter, drops late events -/

theorem runEngine_append (xs ys : List EngineAction) :
    ∀ s, runEngine s (xs ++ ys) = runEngine (runEngine s xs) ys := by
  induction xs with
  | nil => intro s; rfl
  | cons a as ih => intro s; simpa [runEngine] using ih (engineStep s a)

/-- Chat events that do not match the installed waiter's predicate with a
terminal state leave the state unchanged. -/
theorem chatEvents_no_match (ps : List ChatPayload) :
    ∀ (s : EngineState) (w : Waiter), s.slot = some w →
      (∀ p ∈ ps, ¬(payloadMatches w.sessionKey p = true
          ∧ p.state ≠ ChatState.delta)) →
      runEngine s (ps.map EngineAction.chatEvent) = s := by
  induction ps with
  | nil => intro s w _ _; rfl
  | cons p ps ih =>
    intro s w hs hp
    have hstep : chatEventStep s p = s := by
      by_cases hm : payloadMatches w.sessionKey p
      · have hd : p.state = ChatState.delta := by
          by_contra hne
          exact hp p (List.mem_cons_self p ps) ⟨hm, hne⟩
        obtain ⟨sk, rid, st, msg, em⟩ := p
        simp only at hd
        subst hd
        simp [chatEventStep, hs]
      · simp [chatEventStep, hs, hm]
    simp only [List.map_cons, runEngine, engineStep, hstep]
    exact ih s w hs (fun q hq => hp q (List.mem_cons_of_mem p hq))

/-- Once the `'chat'` slot is empty, inbound chat events are dropped. -/
theorem chatEvents_no_slot (ps : List ChatPayload) :
    ∀ s : EngineState, s.slot = none →
      runEngine s (ps.map EngineAction.chatEvent) = s := by
  induction ps with
  | nil => intro s _; rfl
  | cons p ps ih =>
    intro s hs
    have hstep : chatEventStep s p = s := by simp [chatEventStep, hs]
    simp only [List.map_cons, runEngine, engineStep, hstep]
    exact ih s hs

/-- C4: register a waiter `w` for a `chat.send`; the timeout is armed for
exactly 180000 ms; if no chat event matching `w`'s session key with a terminal
state arrives before the timeout fires, then after the timeout — and after any
further chat events, including ones matching `w` — the promise has resolved
exactly once, with `null` ("no reply"), and the waiter has been removed from
the `'chat'` slot, so the late events were silently dropped. The timeout path
is an ordinary resolution, not an exception. -/
theorem waiter_timeout_no_reply (w : Waiter) (pre post : List ChatPayload)
    (hpre : ∀ p ∈ pre, ¬(payloadMatches w.sessionKey p = true
        ∧ p.state ≠ ChatState.delta)) :
    (registerWaiter EngineState.initial w).2 = 180000 ∧
    (runEngine EngineState.initial
        (EngineAction.register w :: pre.map EngineAction.chatEvent
          ++ EngineAction.fireTimeout w.wid :: post.map EngineAction.chatEvent)
      ).resolutions = [(w.wid, none)] ∧
    (runEngine EngineState.initial
        (EngineAction.register w :: pre.map EngineAction.chatEvent
          ++ EngineAction.fireTimeout w.wid :: post.map EngineAction.chatEvent)
      ).slot = none := by
  have h1 : engineStep EngineState.initial (EngineAction.register w)
      = EngineState.mk (some w) [w.wid] [] := rfl
  have hfinal :
      runEngine EngineState.initial
        (EngineAction.register w :: pre.map EngineAction.chatEvent
          ++ EngineAction.fireTimeout w.wid :: post.map EngineAction.chatEvent)
      = EngineState.mk none [] [(w.wid, none)] := by
    have h2 : runEngine (EngineState.mk (some w) [w.wid] [])
        (pre.map EngineAction.chatEvent) = EngineState.mk (some w) [w.wid] [] :=
      chatEvents_no_match pre _ w rfl hpre
    have h3 : engineStep (EngineState.mk (some w) [w.wid] [])
        (EngineAction.fireTimeout w.wid)
        = EngineState.mk none [] [(w.wid, none)] := by
      show timeoutStep _ _ = _
      rw [timeoutStep, if_pos (by simp)]
      simp [cleanupWaiter, resolveOnce]
    have h4 : runEngine (EngineState.mk none [] [(w.wid, none)])
        (post.map EngineAction.chatEvent)
        = EngineState.mk none [] [(w.wid, none)] :=
      chatEvents_no_slot post _ rfl
    calc runEngine EngineState.initial
          (EngineAction.register w :: pre.map EngineAction.chatEvent
            ++ EngineAction.fireTimeout w.wid :: post.map EngineAction.chatEvent)
        = runEngine (EngineState.mk (some w) [w.wid] [])
            (pre.map EngineAction.chatEvent
              ++ EngineAction.fireTimeout w.wid :: post.map EngineAction.chatEvent) := by
          simp [runEngine, h1]
      _ = runEngine (EngineState.mk (some w) [w.wid] [])
            (EngineAction.fireTimeout w.wid :: post.map EngineAction.chatEvent) := by
          rw [runEngine_append, h2]
      _ = runEngine (EngineState.mk none [] [(w.wid, none)])
            (post.map EngineAction.chatEvent) := by
          simp [runEngine, h3]
      _ = EngineState.mk none [] [(w.wid, none)] := h4
  refine ⟨rfl, ?_, ?_⟩ <;> rw [hfinal]

/-- Witness for `waiter_timeout_no_reply`: `waiterB`, one non-matching `final`
event before the timeout, and a late matching `aborted` event after it. -/
theorem waiter_timeout_no_reply_witness :
    (registerWaiter EngineState.initial waiterB).2 = 180000 ∧
    (runEngine EngineState.initial
        (EngineAction.register waiterB
          :: [finalEventA].map EngineAction.chatEvent
          ++ EngineAction.fireTimeout waiterB.wid
          :: [ChatPayload.mk "qq-2" "run-b" ChatState.aborted JsMessage.null
               none].map EngineAction.chatEvent)).resolutions
      = [(waiterB.wid, none)] ∧
    (runEngine EngineState.initial
        (EngineAction.register waiterB
          :: [finalEventA].map EngineAction.chatEvent
          ++ EngineAction.fireTimeout waiterB.wid
          :: [ChatPayload.mk "qq-2" "run-b" ChatState.aborted JsMessage.null
               none].map EngineAction.chatEvent)).slot = none :=
  waiter_timeout_no_reply waiterB [finalEventA] _ (by decide)

/-! ### C5 — terminal states and their resolution values -/

/-- C5: only `final`, `aborted` and `error` are terminal for the installed
waiter. A matching `final` event removes the waiter and resolves the promise
with the text extracted from the payload message (trimmed; `null` when empty);
a matching `aborted` event resolves it with the abort notice `⏹ 已中止`; a
matching `error` event resolves it with `❌` plus the payload's error message
(default `处理出错`); and a matching `delta` event is ignored — it neither
resolves the promise nor removes the waiter. -/
theorem chat_terminal_states (s : EngineState) (w : Waiter) (p : ChatPayload)
    (hslot : s.slot = some w) (hmatch : payloadMatches w.sessionKey p = true) :
    (p.state = ChatState.final → chatEventStep s p
        = { slot := none, armed := s.armed.erase w.wid,
            resolutions := resolveOnce s.resolutions w.wid
              (finalResolution p) }) ∧
    (p.state = ChatState.aborted → chatEventStep s p
        = { slot := none, armed := s.armed.erase w.wid,
            resolutions := resolveOnce s.resolutions w.wid
              (some "⏹ 已中止") }) ∧
    (p.state = ChatState.error → chatEventStep s p
        = { slot := none, armed := s.armed.erase w.wid,
            resolutions := resolveOnce s.resolutions w.wid
              (some ("❌ " ++ jsOr p.errorMessage "处理出错")) }) ∧
    (p.state = ChatState.delta → chatEventStep s p = s) := by
  obtain ⟨sk, rid, st, msg, em⟩ := p
  refine ⟨fun hst => ?_, fun hst => ?_, fun hst => ?_, fun hst => ?_⟩ <;>
    · have h' : st = _ := hst
      subst h'
      simp [chatEventStep, hslot, hmatch, cleanupWaiter, terminalValue,
        errorResolution]

/-- Witness for `chat_terminal_states`: `waiterA` installed and its matching
`final` event. -/
theorem chat_terminal_states_witness :
    chatEventStep (EngineState.mk (some waiterA) [0] []) finalEventA
      = { slot := none, armed := ([0] : List Nat).erase waiterA.wid,
          resolutions := resolveOnce [] waiterA.wid
            (finalResolution finalEventA) } :=
  (chat_terminal_states (EngineState.mk (some waiterA) [0] []) waiterA
    finalEventA rfl (by decide)).1 rfl

/-! ### C9 — gateway failure degrades to the CLI fallback -/

/-- C9: when the gateway round trip throws, the first action taken is invoking
the local CLI with the same session key and the same assembled message, under
its own 180000 ms timeout; when the CLI also fails, the complete list of
user-visible effects is that CLI invocation followed by exactly one reply — the
short failure notice `处理出错: ` plus at most the first 100 characters of the
gateway error; and whatever the outcome of media caching, the assembled message
always carries the primary text intact after the identity header and optional
reply context. -/
theorem gateway_fallback_spec :
    (∀ sk msg e cli,
      (gatewaySendFlow sk msg (GwOutcome.failed e) cli).head?
        = some (UserAction.invokeCli ⟨sk, msg, 180000⟩)) ∧
    (∀ sk msg e,
      gatewaySendFlow sk msg (GwOutcome.failed e) CliOutcome.failed
        = [UserAction.invokeCli ⟨sk, msg, 180000⟩,
           UserAction.sendText ("处理出错: " ++ e.take 100)]) ∧
    (∀ hdr rc text media cacheEnabled cache, ∃ tailPart,
      buildOpenclawMessage hdr rc text media cacheEnabled cache
        = hdr ++ "\n" ++ (if rc = "" then "" else rc ++ "\n") ++ text
            ++ tailPart) := by
  refine ⟨fun sk msg e cli => by cases cli <;> rfl,
    fun sk msg e => rfl,
    fun hdr rc text media cacheEnabled cache => ?_⟩
  cases media with
  | nil => exact ⟨"", by simp [buildOpenclawMessage]⟩
  | cons m ms =>
    refine ⟨"\n\n" ++ String.intercalate "\n"
      ((m :: ms).map (mediaLine cacheEnabled cache)), ?_⟩
    simp [buildOpenclawMessage, String.append_assoc]

/-! ### C10 — reply chunking -/

theorem chunkLoop_length (head : List OutSeg) (total : Nat) :
    ∀ (n : Nat) (l : List Char) (idx : Nat), l.length ≤ n →
      (chunkLoop head total l idx).length = (l.length + 2999) / 3000 := by
  intro n
  induction n with
  | zero =>
    intro l idx hl
    have hnil : l = [] := List.eq_nil_of_length_eq_zero (Nat.le_zero.mp hl)
    subst hnil
    simp [chunkLoop]
  | succ n ih =>
    intro l idx hl
    cases l with
    | nil => simp [chunkLoop]
    | cons c l' =>
      have hrec := ih ((c :: l').drop 3000) (idx + 1)
        (by simp only [List.length_cons, List.length_drop] at hl ⊢; omega)
      simp only [chunkLoop, List.length_cons, hrec, List.length_drop]
      omega

theorem chunkLoop_get (head : List OutSeg) (total : Nat) :
    ∀ (n : Nat) (l : List Char) (idx j : Nat), l.length ≤ n →
      j < (chunkLoop head total l idx).length →
      (chunkLoop head total l idx)[j]?
        = some ((if idx + j = 1 then head else [])
            ++ [OutSeg.text (chunkHeader (idx + j) total
                ++ ((l.drop (3000 * j)).take 3000).asString)]) := by
  intro n
  induction n with
  | zero =>
    intro l idx j hl hj
    have hnil : l = [] := List.eq_nil_of_length_eq_zero (Nat.le_zero.mp hl)
    subst hnil
    simp [chunkLoop] at hj
  | succ n ih =>
    intro l idx j hl hj
    cases l with
    | nil => simp [chunkLoop] at hj
    | cons c l' =>
      cases j with
      | zero =>
        simp only [chunkLoop, List.getElem?_cons_zero, Nat.add_zero,
          Nat.mul_zero, List.drop_zero]
      | succ j =>
        have hlen : ((c :: l').drop 3000).length ≤ n := by
          simp only [List.length_cons, List.length_drop] at hl ⊢; omega
        have hj' : j < (chunkLoop head total ((c :: l').drop 3000)
            (idx + 1)).length := by
          simp only [chunkLoop, List.length_cons] at hj
          omega
        have harith : idx + 1 + j = idx + (j + 1) := by omega
        have hdrop : ((c :: l').drop 3000).drop (3000 * j)
            = (c :: l').drop (3000 * (j + 1)) := by
          rw [List.drop_drop]
          congr 1
          omega
        simp only [chunkLoop, List.getElem?_cons_succ]
        rw [ih ((c :: l').drop 3000) (idx + 1) j hlen hj', harith, hdrop]

/-- C10: when the cleaned reply text (after removing `MEDIA:` lines, the input
of index.ts:427) has more than 3000 characters, `sendReply` splits it into
`⌈length/3000⌉` consecutive sends preserving order, chunk `j` (0-based)
carrying exactly the text `[j+1/total]`, a newline, and the `j`-th
3000-character slice, with the group at/quote segments attached only to the
first chunk; a non-empty cleaned text of at most 3000 characters is sent as
exactly one message carrying those segments. -/
theorem sendReply_chunking (head : List OutSeg) (ct : String) :
    (ct ≠ "" → ct.length ≤ 3000 →
      sendTextPart head ct = [head ++ [OutSeg.text ct]]) ∧
    (3000 < ct.length →
      (sendTextPart head ct).length = (ct.length + 2999) / 3000 ∧
      (∀ j, j < (sendTextPart head ct).length →
        (sendTextPart head ct)[j]?
          = some ((if j = 0 then head else [])
              ++ [OutSeg.text ("[" ++ toString (j + 1) ++ "/"
                    ++ toString ((ct.length + 2999) / 3000) ++ "]\n"
                  ++ ((ct.toList.drop (3000 * j)).take 3000).asString)]))) := by
  constructor
  · intro hne hle
    rw [sendTextPart, if_neg hne, if_pos hle]
  · intro hgt
    have hne : ct ≠ "" := by
      intro h
      rw [h] at hgt
      exact absurd hgt (by decide)
    have hnle : ¬ (ct.length ≤ 3000) := by omega
    have hdef : sendTextPart head ct
        = chunkLoop head ((ct.length + 2999) / 3000) ct.toList 1 := by
      rw [sendTextPart, if_neg hne, if_neg hnle]
    have hlist : ct.toList.length = ct.length := rfl
    have htotal : 1 < (ct.length + 2999) / 3000 := by omega
    constructor
    · rw [hdef, chunkLoop_length head _ ct.toList.length ct.toList 1 le_rfl,
        hlist]
    · intro j hj
      rw [hdef] at hj ⊢
      rw [chunkLoop_get head _ ct.toList.length ct.toList 1 j le_rfl hj]
      have hif : (if 1 + j = 1 then head else ([] : List OutSeg))
          = (if j = 0 then head else []) := if_congr (by omega) rfl rfl
      rw [chunkHeader, if_pos htotal, hif]
      have h2 : 1 + j = j + 1 := by omega
      rw [h2]

/-- Witness for `sendReply_chunking`: a 6001-character text splits into three
chunks. -/
theorem sendReply_chunking_witness :
    (sendTextPart [] (String.mk (List.replicate 6001 'x'))).length
      = ((String.mk (List.replicate 6001 'x')).length + 2999) / 3000 :=
  ((sendReply_chunking [] (String.mk (List.replicate 6001 'x'))).2
    (by
      have hlen : (String.mk (List.replicate 6001 'x')).length = 6001 := by
        exact List.length_replicate 6001 'x'
      omega)).1

/-! ### C2 — size-capped eviction, oldest first -/

theorem sizeSum_nil : sizeSum [] = 0 := rfl

theorem sizeSum_cons (f : CacheFile) (l : List CacheFile) :
    sizeSum (f :: l) = f.size + sizeSum l := by
  simp [sizeSum]

theorem sizeSum_append (a b : List CacheFile) :
    sizeSum (a ++ b) = sizeSum a + sizeSum b := by
  simp [sizeSum]

theorem sizeSum_perm {a b : List CacheFile} (h : a.Perm b) :
    sizeSum a = sizeSum b := by
  unfold sizeSum
  exact (h.map (fun f => f.size)).sum_eq

theorem byMtime_perm (l : List CacheFile) : (byMtime l).Perm l :=
  List.mergeSort_perm l _

theorem byMtime_pairwise (l : List CacheFile) :
    (byMtime l).Pairwise (fun a b => a.mtimeMs ≤ b.mtimeMs) := by
  have h := @List.sorted_mergeSort CacheFile
    (fun a b : CacheFile => decide (a.mtimeMs ≤ b.mtimeMs))
    (fun a b c hab hbc => by
      simp only [decide_eq_true_eq] at hab hbc ⊢
      omega)
    (fun a b => by
      simp only [Bool.or_eq_true, decide_eq_true_eq]
      omega)
    l
  exact h.imp (fun hab => by simpa using hab)

/-- The eviction loop with every `unlinkSync` succeeding deletes an initial
segment of the sorted file list, stopping as soon as the budget holds (or the
list is exhausted). -/
theorem evictLoop_spec (maxBytes needBytes : Int) :
    ∀ (fs : List CacheFile) (cur : Int),
      ∃ k, k ≤ fs.length ∧
        evictLoop (fun _ => true) maxBytes needBytes fs cur
          = (fs.take k).map (fun f => f.name) ∧
        (cur - sizeSum (fs.take k) + needBytes ≤ maxBytes ∨ k = fs.length) := by
  intro fs
  induction fs with
  | nil =>
    intro cur
    exact ⟨0, Nat.le_refl 0, rfl, Or.inr rfl⟩
  | cons f fs ih =>
    intro cur
    by_cases h : cur + needBytes ≤ maxBytes
    · refine ⟨0, Nat.zero_le _, ?_, Or.inl ?_⟩
      · simp [evictLoop, h]
      · simpa [sizeSum_nil] using h
    · obtain ⟨k, hk, he, hb⟩ := ih (cur - f.size)
      refine ⟨k + 1, by simpa using Nat.succ_le_succ hk, ?_, ?_⟩
      · simp [evictLoop, h, he]
      · rcases hb with hb | hb
        · left
          simp only [List.take_succ_cons, sizeSum_cons]
          omega
        · right
          simp [hb]

/-- Core characterisation of `evictOldestFiles` with every `statSync` and
`unlinkSync` succeeding, when the incoming bytes do not fit: the deleted names
are those of an initial segment of the mtime-sorted listing, and afterwards the
budget holds or the whole listing was deleted. -/
theorem evict_core (cacheMaxSizeMB n : Int) (l : List CacheFile)
    (hnofit : ¬ (sizeSum l + n ≤ cacheMaxSizeMB * 1024 * 1024)) :
    ∃ k, k ≤ (byMtime l).length ∧
      (evictOldestFiles cacheMaxSizeMB n (some l)
          (fun _ => true) (fun _ => true)).2
        = ((byMtime l).take k).map (fun g => g.name) ∧
      (evictOldestFiles cacheMaxSizeMB n (some l)
          (fun _ => true) (fun _ => true)).1
        = some (l.filter (fun f =>
            !((((byMtime l).take k).map (fun g => g.name)).contains f.name))) ∧
      (sizeSum l - sizeSum ((byMtime l).take k) + n
          ≤ cacheMaxSizeMB * 1024 * 1024 ∨ k = (byMtime l).length) := by
  obtain ⟨k, hk, he, hb⟩ :=
    evictLoop_spec (cacheMaxSizeMB * 1024 * 1024) n (byMtime l) (sizeSum l)
  have hunfold : evictOldestFiles cacheMaxSizeMB n (some l)
      (fun _ => true) (fun _ => true)
      = (some (l.filter (fun f =>
          !((evictLoop (fun _ => true) (cacheMaxSizeMB * 1024 * 1024) n
              (byMtime l) (sizeSum l)).contains f.name))),
         evictLoop (fun _ => true) (cacheMaxSizeMB * 1024 * 1024) n
           (byMtime l) (sizeSum l)) := by
    unfold evictOldestFiles
    simp only [getCacheDirSize, List.filter_true]
    rw [if_neg hnofit]
  refine ⟨k, hk, ?_, ?_, hb⟩
  · rw [hunfold, he]
  · rw [hunfold, he]

/-- Filtering a list that discards exactly its first `k` elements leaves the
remainder. -/
theorem filter_split_eq_drop {α : Type} (S : List α) (k : Nat) (p : α → Bool)
    (htake : (S.take k).filter p = [])
    (hdrop : (S.drop k).filter p = S.drop k) :
    S.filter p = S.drop k := by
  conv_lhs => rw [← List.take_append_drop k S]
  rw [List.filter_append, htake, hdrop, List.nil_append]

/-- With pairwise-distinct file names, the survivors of dropping the first `k`
sorted names are exactly (a permutation of) the rest of the sorted listing. -/
theorem survivors_perm (l : List CacheFile) (k : Nat)
    (hnd : (l.map (fun f => f.name)).Nodup) :
    (l.filter (fun f =>
        !((((byMtime l).take k).map (fun g => g.name)).contains f.name))).Perm
      ((byMtime l).drop k) := by
  have hndS : ((byMtime l).map (fun f => f.name)).Nodup := by
    have hp : ((byMtime l).map (fun f => f.name)).Perm
        (l.map (fun f => f.name)) := (byMtime_perm l).map _
    exact hp.nodup_iff.mpr hnd
  have hsplit : (byMtime l).take k ++ (byMtime l).drop k = byMtime l :=
    List.take_append_drop k (byMtime l)
  have hdisj : ∀ x ∈ ((byMtime l).take k).map (fun f => f.name),
      x ∉ ((byMtime l).drop k).map (fun f => f.name) := by
    intro x hx
    have hnd2 : ((((byMtime l).take k).map (fun f => f.name))
        ++ (((byMtime l).drop k).map (fun f => f.name))).Nodup := by
      rw [← List.map_append, hsplit]
      exact hndS
    exact (List.nodup_append.mp hnd2).2.2 hx
  have hstep := ((byMtime_perm l).symm).filter (fun f =>
      !((((byMtime l).take k).map (fun g => g.name)).contains f.name))
  have htake : ((byMtime l).take k).filter (fun f =>
      !((((byMtime l).take k).map (fun g => g.name)).contains f.name)) = [] := by
    rw [List.filter_eq_nil_iff]
    intro f hf
    have : f.name ∈ ((byMtime l).take k).map (fun g => g.name) :=
      List.mem_map_of_mem _ hf
    simpa using this
  have hdrop : ((byMtime l).drop k).filter (fun f =>
      !((((byMtime l).take k).map (fun g => g.name)).contains f.name))
      = (byMtime l).drop k := by
    rw [List.filter_eq_self]
    intro f hf
    have hmem : f.name ∈ ((byMtime l).drop k).map (fun g => g.name) :=
      List.mem_map_of_mem _ hf
    have hnot : f.name ∉ ((byMtime l).take k).map (fun g => g.name) := by
      intro hx
      exact hdisj _ hx hmem
    simpa using hnot
  rw [filter_split_eq_drop (byMtime l) k _ htake hdrop] at hstep
  exact hstep

/-- In the sorted listing of a directory with pairwise-distinct names, a name
cannot occur both among the first `k` files and among the rest. -/
theorem byMtime_names_disjoint (l : List CacheFile) (k : Nat)
    (hnd : (l.map (fun f => f.name)).Nodup) :
    ∀ x ∈ ((byMtime l).take k).map (fun f => f.name),
      x ∉ ((byMtime l).drop k).map (fun f => f.name) := by
  have hndS : ((byMtime l).map (fun f => f.name)).Nodup := by
    have hp : ((byMtime l).map (fun f => f.name)).Perm
        (l.map (fun f => f.name)) := (byMtime_perm l).map _
    exact hp.nodup_iff.mpr hnd
  intro x hx
  have hnd2 : ((((byMtime l).take k).map (fun f => f.name))
      ++ (((byMtime l).drop k).map (fun f => f.name))).Nodup := by
    rw [← List.map_append, List.take_append_drop]
    exact hndS
  exact (List.nodup_append.mp hnd2).2.2 hx

/-- After `evictOldestFiles` (all file operations succeeding), either the
surviving bytes plus the incoming bytes fit under the cap, or the directory
has been emptied. -/
theorem evict_budget (cacheMaxSizeMB n : Int) (l : List CacheFile)
    (hnd : (l.map (fun f => f.name)).Nodup) (l' : List CacheFile)
    (h1 : (evictOldestFiles cacheMaxSizeMB n (some l)
        (fun _ => true) (fun _ => true)).1 = some l') :
    sizeSum l' + n ≤ cacheMaxSizeMB * 1024 * 1024 ∨ l' = [] := by
  by_cases hfit : sizeSum l + n ≤ cacheMaxSizeMB * 1024 * 1024
  · have hres : (evictOldestFiles cacheMaxSizeMB n (some l)
        (fun _ => true) (fun _ => true)).1 = some l := by
      unfold evictOldestFiles
      simp only [getCacheDirSize, List.filter_true]
      rw [if_pos hfit]
    rw [hres] at h1
    left
    rw [← Option.some_inj.mp h1]
    exact hfit
  · obtain ⟨k, hk, he2, he1, hb⟩ := evict_core cacheMaxSizeMB n l hfit
    rw [he1] at h1
    have hl' : l' = l.filter (fun f =>
        !((((byMtime l).take k).map (fun g => g.name)).contains f.name)) :=
      (Option.some_inj.mp h1).symm
    have hp : l'.Perm ((byMtime l).drop k) := by
      rw [hl']
      exact survivors_perm l k hnd
    have hs1 : sizeSum l' = sizeSum ((byMtime l).drop k) := sizeSum_perm hp
    have hs2 : sizeSum ((byMtime l).take k) + sizeSum ((byMtime l).drop k)
        = sizeSum l := by
      rw [← sizeSum_append, List.take_append_drop]
      exact sizeSum_perm (byMtime_perm l)
    rcases hb with hb | hb
    · left
      omega
    · right
      have hdropnil : (byMtime l).drop k = [] := by
        rw [hb]
        exact List.drop_length _
      rw [hdropnil] at hp
      exact hp.eq_nil

/-- After `evictOldestFiles` (all file operations succeeding), no surviving
entry is strictly older than any evicted entry. -/
theorem evict_oldest_first (cacheMaxSizeMB n : Int) (l : List CacheFile)
    (hnd : (l.map (fun f => f.name)).Nodup) (l' : List CacheFile)
    (f g : CacheFile)
    (h1 : (evictOldestFiles cacheMaxSizeMB n (some l)
        (fun _ => true) (fun _ => true)).1 = some l')
    (hf : f ∈ l') (hg : g ∈ l)
    (hcont : ((evictOldestFiles cacheMaxSizeMB n (some l)
        (fun _ => true) (fun _ => true)).2).contains g.name = true) :
    g.mtimeMs ≤ f.mtimeMs := by
  by_cases hfit : sizeSum l + n ≤ cacheMaxSizeMB * 1024 * 1024
  · exfalso
    have hres : (evictOldestFiles cacheMaxSizeMB n (some l)
        (fun _ => true) (fun _ => true)).2 = [] := by
      unfold evictOldestFiles
      simp only [getCacheDirSize, List.filter_true]
      rw [if_pos hfit]
    rw [hres] at hcont
    simp at hcont
  · obtain ⟨k, hk, he2, he1, hb⟩ := evict_core cacheMaxSizeMB n l hfit
    rw [he1] at h1
    have hl' : l' = l.filter (fun x =>
        !((((byMtime l).take k).map (fun x => x.name)).contains x.name)) :=
      (Option.some_inj.mp h1).symm
    rw [he2] at hcont
    have hgname : g.name ∈ ((byMtime l).take k).map (fun x => x.name) := by
      simpa using hcont
    have hgS : g ∈ byMtime l := (byMtime_perm l).mem_iff.mpr hg
    have hgsplit : g ∈ (byMtime l).take k ∨ g ∈ (byMtime l).drop k := by
      rw [← List.mem_append, List.take_append_drop]
      exact hgS
    have hgtake : g ∈ (byMtime l).take k := by
      rcases hgsplit with h | h
      · exact h
      · exact absurd (List.mem_map_of_mem _ h)
          (byMtime_names_disjoint l k hnd _ hgname)
    have hfl : f ∈ l ∧ f.name ∉ ((byMtime l).take k).map (fun x => x.name) := by
      rw [hl'] at hf
      have := List.mem_filter.mp hf
      refine ⟨this.1, ?_⟩
      have hkeep := this.2
      simpa using hkeep
    have hfS : f ∈ byMtime l := (byMtime_perm l).mem_iff.mpr hfl.1
    have hfsplit : f ∈ (byMtime l).take k ∨ f ∈ (byMtime l).drop k := by
      rw [← List.mem_append, List.take_append_drop]
      exact hfS
    have hfdrop : f ∈ (byMtime l).drop k := by
      rcases hfsplit with h | h
      · exact absurd (List.mem_map_of_mem _ h) hfl.2
      · exact h
    have hpw := byMtime_pairwise l
    rw [← List.take_append_drop k (byMtime l), List.pairwise_append] at hpw
    exact hpw.2.2 g hgtake f hfdrop

/-- C2: before writing an incoming file of `n` bytes, `downloadMedia` runs
`evictOldestFiles(n)`, which (with all file operations succeeding and
pairwise-distinct names): (a) evicts nothing when the current total plus `n`
already fits under `cacheMaxSizeMB * 1024 * 1024`; (b) deletes exactly the
names of an initial segment of the listing sorted ascending by modification
time — the stable sort breaking ties by enumeration order — so deletion
proceeds oldest-first; (c) stops with the surviving total plus `n` at most the
cap, or with the directory empty; (d) never removes an entry while a strictly
older entry survives; and (e) only then is the file written: the resulting
directory is the post-eviction directory plus the new file, and fits under the
cap unless eviction had emptied the directory. -/
theorem evictOldestFiles_spec (cacheMaxSizeMB : Int) (l : List CacheFile)
    (hnd : (l.map (fun f => f.name)).Nodup) :
    (∀ n : Int, sizeSum l + n ≤ cacheMaxSizeMB * 1024 * 1024 →
      evictOldestFiles cacheMaxSizeMB n (some l) (fun _ => true) (fun _ => true)
        = (some l, [])) ∧
    (∀ n : Int, ∃ k,
      (evictOldestFiles cacheMaxSizeMB n (some l)
          (fun _ => true) (fun _ => true)).2
        = ((byMtime l).take k).map (fun g => g.name)) ∧
    (∀ (n : Int) (l' : List CacheFile),
      (evictOldestFiles cacheMaxSizeMB n (some l)
          (fun _ => true) (fun _ => true)).1 = some l' →
      sizeSum l' + n ≤ cacheMaxSizeMB * 1024 * 1024 ∨ l' = []) ∧
    (∀ (n : Int) (l' : List CacheFile) (f g : CacheFile),
      (evictOldestFiles cacheMaxSizeMB n (some l)
          (fun _ => true) (fun _ => true)).1 = some l' →
      f ∈ l' → g ∈ l →
      ((evictOldestFiles cacheMaxSizeMB n (some l)
          (fun _ => true) (fun _ => true)).2).contains g.name = true →
      g.mtimeMs ≤ f.mtimeMs) ∧
    (∀ (freshName : String) (now bytes : Int), ∃ d,
      (downloadMedia cacheMaxSizeMB (some l) (fun _ => true) (fun _ => true)
          freshName now bytes true).1 = some d ∧
      d = (evictOldestFiles cacheMaxSizeMB bytes (some l)
            (fun _ => true) (fun _ => true)).1.getD []
          ++ [⟨freshName, now, bytes⟩] ∧
      (sizeSum d ≤ cacheMaxSizeMB * 1024 * 1024
        ∨ d = [⟨freshName, now, bytes⟩])) := by
  have hfitcase : ∀ n : Int, sizeSum l + n ≤ cacheMaxSizeMB * 1024 * 1024 →
      evictOldestFiles cacheMaxSizeMB n (some l) (fun _ => true) (fun _ => true)
        = (some l, []) := by
    intro n h
    unfold evictOldestFiles
    simp only [getCacheDirSize, List.filter_true]
    rw [if_pos h]
  refine ⟨hfitcase, fun n => ?_, fun n => evict_budget cacheMaxSizeMB n l hnd,
    fun n => evict_oldest_first cacheMaxSizeMB n l hnd,
    fun freshName now bytes => ?_⟩
  · by_cases hfit : sizeSum l + n ≤ cacheMaxSizeMB * 1024 * 1024
    · refine ⟨0, ?_⟩
      rw [hfitcase n hfit]
      simp
    · obtain ⟨k, _, he2, _, _⟩ := evict_core cacheMaxSizeMB n l hfit
      exact ⟨k, he2⟩
  · have hsome : ∃ l'', (evictOldestFiles cacheMaxSizeMB bytes (some l)
        (fun _ => true) (fun _ => true)).1 = some l'' := by
      by_cases hfit : sizeSum l + bytes ≤ cacheMaxSizeMB * 1024 * 1024
      · exact ⟨l, by rw [hfitcase bytes hfit]⟩
      · obtain ⟨k, _, _, he1, _⟩ := evict_core cacheMaxSizeMB bytes l hfit
        exact ⟨_, he1⟩
    obtain ⟨l'', hl''⟩ := hsome
    refine ⟨l'' ++ [⟨freshName, now, bytes⟩], ?_, ?_, ?_⟩
    · show ((some ((evictOldestFiles cacheMaxSizeMB bytes (some l)
          (fun _ => true) (fun _ => true)).1.getD []
          ++ [⟨freshName, now, bytes⟩]) : Option (List CacheFile)),
        (some freshName : Option String)).1
        = some (l'' ++ [⟨freshName, now, bytes⟩])
      rw [hl'']
      rfl
    · rw [hl'']
      rfl
    · have hb := evict_budget cacheMaxSizeMB bytes l hnd l'' hl''
      have hsz : sizeSum (l'' ++ [⟨freshName, now, bytes⟩])
          = sizeSum l'' + bytes := by
        rw [sizeSum_append]
        simp [sizeSum]
      rcases hb with hb | hb
      · left
        omega
      · right
        rw [hb, List.nil_append]

/-- Witness for `evictOldestFiles_spec`: a two-file directory with distinct
names where the incoming bytes fit, so nothing is evicted. -/
theorem evictOldestFiles_spec_witness :
    evictOldestFiles 1 5 (some [⟨"a", 10, 100⟩, ⟨"b", 20, 200⟩])
        (fun _ => true) (fun _ => true)
      = (some [⟨"a", 10, 100⟩, ⟨"b", 20, 200⟩], []) :=
  (evictOldestFiles_spec 1 [⟨"a", 10, 100⟩, ⟨"b", 20, 200⟩] (by decide)).1 5
    (by decide)

/-! ### C8 — TTL sweep scheduling and failure tolerance -/

/-- C8: the expiry sweep is scheduled on an interval equal to the TTL
(`cacheTTLMinutes * 60 * 1000` ms); it deletes exactly the entries whose age
strictly exceeds the TTL when every file operation succeeds; both the sweep
and the eviction treat a missing cache directory as empty, returning without
error; and a file whose `statSync` or `unlinkSync` fails is merely skipped —
it survives while the sweep continues (a file is deleted only when it is
expired and both of its file operations succeed), never aborting or throwing
(the sweep is a total function of the directory state). -/
theorem cache_sweep_spec :
    (∀ ttl : Int, cacheCleanupIntervalMs true ttl = some (ttl * 60 * 1000)) ∧
    (∀ (ttl now : Int) (statOk unlinkOk : String → Bool),
      cleanExpiredCache ttl now none statOk unlinkOk = none) ∧
    (∀ (mb n : Int) (statOk unlinkOk : String → Bool),
      evictOldestFiles mb n none statOk unlinkOk = (none, [])) ∧
    (∀ (ttl now : Int) (l : List CacheFile),
      cleanExpiredCache ttl now (some l) (fun _ => true) (fun _ => true)
        = some (l.filter (fun f =>
            decide (now - f.mtimeMs ≤ ttl * 60 * 1000)))) ∧
    (∀ (ttl now : Int) (statOk unlinkOk : String → Bool)
        (l l' : List CacheFile) (f : CacheFile),
      cleanExpiredCache ttl now (some l) statOk unlinkOk = some l' → f ∈ l →
      (f ∉ l' → (now - f.mtimeMs > ttl * 60 * 1000
        ∧ statOk f.name = true ∧ unlinkOk f.name = true)) ∧
      ((now - f.mtimeMs > ttl * 60 * 1000 ∧ statOk f.name = true
        ∧ unlinkOk f.name = true) → f ∉ l')) := by
  refine ⟨fun ttl => rfl, fun ttl now statOk unlinkOk => rfl,
    fun mb n statOk unlinkOk => rfl, fun ttl now l => ?_,
    fun ttl now statOk unlinkOk l l' f h1 hf => ?_⟩
  · simp only [cleanExpiredCache]
    congr 1
    apply List.filter_congr
    intro f _
    simp only [Bool.true_and, Bool.and_true]
    rw [← decide_not]
    exact decide_eq_decide.mpr (by omega)
  · have hl' : l' = l.filter (fun x =>
        !(statOk x.name && decide (now - x.mtimeMs > ttl * 60 * 1000)
          && unlinkOk x.name)) := by
      simp only [cleanExpiredCache] at h1
      exact (Option.some_inj.mp h1).symm
    constructor
    · intro hnot
      by_contra hcond
      apply hnot
      rw [hl', List.mem_filter]
      refine ⟨hf, ?_⟩
      simp only [Bool.not_eq_true', Bool.and_eq_false_iff]
      by_contra hall
      apply hcond
      simp only [Bool.and_eq_false_iff, not_or, Bool.not_eq_false] at hall
      obtain ⟨⟨hstat, hexp⟩, hunlink⟩ := hall
      exact ⟨by simpa using hexp, hstat, hunlink⟩
    · intro ⟨hexp, hstat, hunlink⟩ hmem
      rw [hl'] at hmem
      have hkeep := (List.mem_filter.mp hmem).2
      rw [hstat, hunlink] at hkeep
      simp [hexp] at hkeep

/-- Witness for `cache_sweep_spec`: a 2-minute-old file against a 1-minute TTL
is deleted by the sweep, because it is expired and both its file operations
succeeded. -/
theorem cache_sweep_spec_witness :
    (120000 : Int) - (CacheFile.mk "a" 0 5).mtimeMs > 1 * 60 * 1000
      ∧ (fun _ : String => true) (CacheFile.mk "a" 0 5).name = true
      ∧ (fun _ : String => true) (CacheFile.mk "a" 0 5).name = true :=
  (cache_sweep_spec.2.2.2.2 1 120000 (fun _ => true) (fun _ => true)
    [⟨"a", 0, 5⟩] [] ⟨"a", 0, 5⟩ (by decide) (by decide)).1 (by decide)

end OpenClaw
